import Mathlib

/-!
Verification of the F1 data-analyzer frontend analysis logic.

The definitions below are a shallow embedding of the stint
reconstruction, lap filtering and telemetry alignment code of
`src/web/frontend/src/pages/RaceAnalysis.tsx` and the telemetry
comparison page.  JavaScript numbers are modelled as `ℚ`, nullable
values as `Option`, and JavaScript string truthiness (`null`,
`undefined` and `""` are falsy) is modelled explicitly.
-/

/-- One entry of `chartData`: lap number, lap time (nullable),
tyre compound (nullable). -/
structure LapRec where
  lap : Int
  time : Option ℚ
  compound : Option String
deriving DecidableEq, Repr, Inhabited

/-- One entry of `driverLaps.pit_stops`: the lap of the stop and the
compound mounted before the stop (nullable). -/
structure PitStop where
  lap : Int
  compound_before : Option String
deriving DecidableEq, Repr, Inhabited

/-- One reconstructed stint, as pushed onto the `stints` array. -/
structure Stint where
  compound : String
  data : List LapRec
  startLap : Int
  endLap : Int
deriving DecidableEq, Repr, Inhabited

/-- JavaScript falsiness of an optional string: `null`/`undefined` and
the empty string are falsy. -/
def jsFalsyStr : Option String → Bool
  | none => true
  | some s => s == ""

/-- JavaScript `a || b` where `b` is a plain string. -/
def jsOrStr (a : Option String) (b : String) : String :=
  match a with
  | none => b
  | some s => if s == "" then b else s

/-- JavaScript `a || b` on two optional strings. -/
def jsOrOptStr (a b : Option String) : Option String :=
  if jsFalsyStr a then b else a

/-- `Math.min(...chartData.map(l => l.lap))` (defined as `0` on the
empty list; the code only evaluates it on non-empty data). -/
def minLap : List LapRec → Int
  | [] => 0
  | l :: ls =>
    match ls with
    | [] => l.lap
    | _ :: _ => min l.lap (minLap ls)

/-- `Math.max(...chartData.map(l => l.lap))` (defined as `0` on the
empty list; the code only evaluates it on non-empty data). -/
def maxLap : List LapRec → Int
  | [] => 0
  | l :: ls =>
    match ls with
    | [] => l.lap
    | _ :: _ => max l.lap (maxLap ls)

/-- Stable insertion used by `sortPits`, ordering pit stops by `lap`
ascending as `[...pitStopDetails].sort((a, b) => a.lap - b.lap)` does. -/
def insertPit (p : PitStop) : List PitStop → List PitStop
  | [] => [p]
  | q :: qs => if q.lap < p.lap then q :: insertPit p qs else p :: q :: qs

/-- Stable sort of the pit stops by `lap`, modelling
`[...pitStopDetails].sort((a, b) => a.lap - b.lap)`. -/
def sortPits : List PitStop → List PitStop
  | [] => []
  | p :: ps => insertPit p (sortPits ps)

/-- The compound fallback chain of the pit-stop loop body:
first lap of the stint with a truthy compound, then (when a previous
pit stop exists) `pit_stops.find(ps => ps.lap === prevPitStop.lap)?.compound_before`,
then `chartData[0]?.compound || 'MEDIUM'`. -/
def resolveLoopCompound (stintLaps chartData : List LapRec)
    (pit_stops : List PitStop) (prev : Option PitStop) : String :=
  let c0 : Option String :=
    (stintLaps.find? (fun l => !jsFalsyStr l.compound)).bind (·.compound)
  let c1 : Option String :=
    if jsFalsyStr c0 then
      match prev with
      | some pp => (pit_stops.find? (fun q => q.lap == pp.lap)).bind (·.compound_before)
      | none => c0
    else c0
  if jsFalsyStr c1 then jsOrStr (chartData.head?.bind (·.compound)) "MEDIUM"
  else jsOrStr c1 "MEDIUM"

/-- The `sortedPitStops.forEach` loop of the stint reconstruction:
`prev` is `sortedPitStops[idx - 1]` (`none` at index 0), `stintStart`
the running stint start, and the last argument the remaining sorted
pit stops. -/
def pitLoop (chartData : List LapRec) (pit_stops : List PitStop) :
    Option PitStop → Int → List PitStop → List Stint
  | _, _, [] => []
  | prev, stintStart, p :: rest =>
    let stintEnd := p.lap - 1
    let stintLaps :=
      chartData.filter (fun l => decide (stintStart ≤ l.lap ∧ l.lap ≤ stintEnd))
    let compound := resolveLoopCompound stintLaps chartData pit_stops prev
    (if stintStart ≤ stintEnd then
      [{ compound := compound, data := stintLaps,
         startLap := stintStart, endLap := stintEnd }]
     else []) ++ pitLoop chartData pit_stops (some p) (p.lap + 1) rest

/-- The full stint reconstruction of `RaceAnalysis.tsx` (the `stints`
array): pit-stop driven stints when both `chartData` and the pit-stop
list are non-empty, a single full-range stint when only `chartData` is
non-empty, and `[]` otherwise. -/
def buildStints (chartData : List LapRec) (pit_stops : List PitStop) : List Stint :=
  if chartData.length > 0 ∧ pit_stops.length > 0 then
    let sorted := sortPits pit_stops
    let firstLap := minLap chartData
    let lastLap := maxLap chartData
    let loopStints := pitLoop chartData pit_stops none firstLap sorted
    let stintStart : Int :=
      match sorted.getLast? with
      | some p => p.lap + 1
      | none => firstLap
    let finalStintLaps :=
      chartData.filter (fun l => decide (stintStart ≤ l.lap ∧ l.lap ≤ lastLap))
    if finalStintLaps.length > 0 then
      let lastPitLap : Int :=
        match sorted.getLast? with
        | some p => p.lap
        | none => 0
      let compound :=
        jsOrStr
          (jsOrOptStr
            ((pit_stops.find? (fun q => q.lap == lastPitLap)).bind (·.compound_before))
            (finalStintLaps.head?.bind (·.compound)))
          "HARD"
      loopStints ++
        [{ compound := compound, data := finalStintLaps,
           startLap := stintStart, endLap := lastLap }]
    else loopStints
  else if chartData.length > 0 then
    [{ compound := jsOrStr (chartData.head?.bind (·.compound)) "MEDIUM",
       data := chartData,
       startLap := minLap chartData, endLap := maxLap chartData }]
  else []

/-- The lap-filter selector (`'all' | 'fastest' | 'average'`). -/
inductive LapFilter
  | all
  | fastest
  | average
deriving DecidableEq, Repr

/-- JavaScript truthiness of `lap.time`: `null` and `0` are falsy. -/
def jsTruthyTime : Option ℚ → Bool
  | none => false
  | some t => t != 0

/-- `Math.min(...times)` over a list of numbers (`0` on the empty
list; only evaluated on non-empty input by the guarded code). -/
def listMinQ : List ℚ → ℚ
  | [] => 0
  | x :: xs => xs.foldl min x

/-- The `filteredChartData` computation: keep every lap in `all` mode,
keep everything when no lap has a non-null time, and otherwise apply
the 3 %-of-fastest / 2 %-of-average window to laps with truthy time. -/
def filteredChartData (chartData : List LapRec) (lapFilter : LapFilter) :
    List LapRec :=
  chartData.filter fun lap =>
    if lapFilter = LapFilter.all then true
    else
      let times : List ℚ := (chartData.map (·.time)).filterMap id
      if times.length = 0 then true
      else
        let fastest := listMinQ times
        let average := times.foldl (· + ·) 0 / (times.length : ℚ)
        if lapFilter = LapFilter.fastest ∧ jsTruthyTime lap.time then
          decide (lap.time.getD 0 ≤ fastest * (103 / 100))
        else if lapFilter = LapFilter.average ∧ jsTruthyTime lap.time then
          decide (|lap.time.getD 0 - average| ≤ average * (2 / 100))
        else true

/-- Parallel telemetry arrays of one lap (`interface TelemetryData`). -/
structure Telemetry where
  Distance : List ℚ
  Speed : List ℚ
  Throttle : List ℚ
  Brake : List ℚ
  nGear : List ℚ
  RPM : List ℚ
  DRS : List ℚ
deriving DecidableEq, Repr, Inhabited

/-- One lap of the comparison (`interface LapData`, telemetry part). -/
structure LapData where
  telemetry : Telemetry
deriving DecidableEq, Repr, Inhabited

/-- The two compared laps (`interface TelemetryComparison`). -/
structure TelemetryPair where
  lap1 : LapData
  lap2 : LapData
deriving DecidableEq, Repr, Inhabited

/-- Out-of-range array access yields `undefined`; arithmetic on
`undefined` yields no number (`NaN`), modelled as `none`. -/
def optSub (a b : Option ℚ) : Option ℚ :=
  match a, b with
  | some x, some y => some (x - y)
  | _, _ => none

/-- One point pushed by `prepareSpeedData`. -/
structure SpeedPoint where
  distance : Option ℚ
  speed1 : Option ℚ
  speed2 : Option ℚ
  speedDelta : Option ℚ
deriving DecidableEq, Repr, Inhabited

/-- `prepareSpeedData`: iterate `i` from `0` to
`min(lap1.Distance.length, lap2.Distance.length) - 1` and join the two
speed traces with their delta. -/
def prepareSpeedData (td : Option TelemetryPair) : List SpeedPoint :=
  match td with
  | none => []
  | some t =>
    let len := min t.lap1.telemetry.Distance.length t.lap2.telemetry.Distance.length
    (List.range len).map fun i =>
      { distance := t.lap1.telemetry.Distance[i]?
        speed1 := t.lap1.telemetry.Speed[i]?
        speed2 := t.lap2.telemetry.Speed[i]?
        speedDelta := optSub t.lap1.telemetry.Speed[i]? t.lap2.telemetry.Speed[i]? }

/-- One point pushed by `prepareGearData`. -/
structure GearPoint where
  distance : Option ℚ
  gear1 : Option ℚ
  gear2 : Option ℚ
deriving DecidableEq, Repr, Inhabited

/-- `prepareGearData`: iterates over `lap1.Distance.length` only. -/
def prepareGearData (td : Option TelemetryPair) : List GearPoint :=
  match td with
  | none => []
  | some t =>
    let len := t.lap1.telemetry.Distance.length
    (List.range len).map fun i =>
      { distance := t.lap1.telemetry.Distance[i]?
        gear1 := t.lap1.telemetry.nGear[i]?
        gear2 := t.lap2.telemetry.nGear[i]? }

/-- One point pushed by `prepareRPMData`. -/
structure RPMPoint where
  distance : Option ℚ
  rpm1 : Option ℚ
  rpm2 : Option ℚ
deriving DecidableEq, Repr, Inhabited

/-- `prepareRPMData`: iterates over `lap1.Distance.length` only. -/
def prepareRPMData (td : Option TelemetryPair) : List RPMPoint :=
  match td with
  | none => []
  | some t =>
    let len := t.lap1.telemetry.Distance.length
    (List.range len).map fun i =>
      { distance := t.lap1.telemetry.Distance[i]?
        rpm1 := t.lap1.telemetry.RPM[i]?
        rpm2 := t.lap2.telemetry.RPM[i]? }

/-! ### Helper lemmas -/

theorem jsOrStr_eq_getD (a : Option String) (b : String) (h : a ≠ some "") :
    jsOrStr a b = a.getD b := by
  cases a with
  | none => rfl
  | some s =>
    have hs : ¬s = "" := fun hs => h (by rw [hs])
    simp [jsOrStr, hs]

/-! ### The spec scenario (claim C1) -/

/-- Lap data of the spec scenario: laps 1–3, times 90.0 / 89.5 / 91.2,
compounds SOFT / SOFT / MEDIUM. -/
def c1Laps : List LapRec :=
  [{ lap := 1, time := some 90, compound := some "SOFT" },
   { lap := 2, time := some (179 / 2), compound := some "SOFT" },
   { lap := 3, time := some (456 / 5), compound := some "MEDIUM" }]

/-- The scenario's single pit stop: lap 3, compound before the stop SOFT. -/
def c1Pits : List PitStop := [{ lap := 3, compound_before := some "SOFT" }]

/-- C1: the scenario's claimed output is wrong on the code — the
reconstruction does not return `[{SOFT,1,2},{MEDIUM,3,3}]` for laps 1–3
with a pit stop on lap 3. -/
theorem stints_c1_counterexample :
    (buildStints c1Laps c1Pits).map (fun s => (s.compound, s.startLap, s.endLap)) ≠
      [("SOFT", 1, 2), ("MEDIUM", 3, 3)] := by
  decide

/-- C1 (amended): on the scenario input the reconstruction returns exactly
one stint `{SOFT, 1, 2}`: the stint after the pit stop starts at lap
`3 + 1 = 4`, past the last observed lap, so no second stint is emitted. -/
theorem stints_c1_amended :
    buildStints c1Laps c1Pits =
      [{ compound := "SOFT",
         data := [{ lap := 1, time := some 90, compound := some "SOFT" },
                  { lap := 2, time := some (179 / 2), compound := some "SOFT" }],
         startLap := 1, endLap := 2 }] := by
  rfl

/-! ### Final-stint emission (claim C3) -/

/-- A single observed lap with a pit stop on that very lap. -/
def c3Laps : List LapRec := [{ lap := 1, time := some 90, compound := some "SOFT" }]

/-- The pit stop on lap 1 for the C3 counterexample. -/
def c3Pits : List PitStop := [{ lap := 1, compound_before := some "SOFT" }]

/-- C3: the final stint is not always emitted: with one lap and a pit stop
on lap 1, the final segment `[2, 1]` holds no lap record and the code skips
the final stint (and the loop stint is degenerate), so the result is `[]`. -/
theorem stints_c3_counterexample : buildStints c3Laps c3Pits = [] := by
  decide

/-! ### Null-time laps and the lap filter (claims C4, C9) -/

/-- Two laps, the second with a null time. -/
def c4Laps : List LapRec :=
  [{ lap := 1, time := some 90, compound := none },
   { lap := 2, time := none, compound := none }]

/-- C4: a lap with null time is kept by the `fastest` and by the `average`
filter mode, contradicting the claimed exclusion from their outputs. -/
theorem filter_c4_counterexample :
    ({ lap := 2, time := none, compound := none } : LapRec) ∈
        filteredChartData c4Laps LapFilter.fastest ∧
      ({ lap := 2, time := none, compound := none } : LapRec) ∈
        filteredChartData c4Laps LapFilter.average := by
  refine ⟨List.mem_filter.mpr ⟨by decide, ?_⟩, List.mem_filter.mpr ⟨by decide, ?_⟩⟩ <;>
    simp [c4Laps, jsTruthyTime]

/-- C4 (amended): laps with null time are excluded from the computed
statistics but retained in the output of every filter mode, `fastest`
and `average` included. -/
theorem filter_c4_amended (chartData : List LapRec) (f : LapFilter)
    (l : LapRec) (hmem : l ∈ chartData) (ht : l.time = none) :
    l ∈ filteredChartData chartData f := by
  refine List.mem_filter.mpr ⟨hmem, ?_⟩
  have htr : jsTruthyTime l.time = false := by rw [ht]; rfl
  cases f
  · simp
  · simp [htr]
  · simp [htr]

/-- Witness for C4 (amended) at the concrete two-lap input. -/
theorem filter_c4_amended_witness :
    ({ lap := 2, time := none, compound := none } : LapRec) ∈
      filteredChartData c4Laps LapFilter.average :=
  filter_c4_amended c4Laps LapFilter.average
    { lap := 2, time := none, compound := none } (by decide) (by decide)

/-- C9: when every lap has a null time the list of non-null times is empty,
the statistics guard fires, and both `fastest` and `average` return the
lap sequence unchanged — no minimum of an empty set and no division by
zero is reached. -/
theorem filter_c9_all_null (chartData : List LapRec)
    (h : ∀ l ∈ chartData, l.time = none) :
    filteredChartData chartData LapFilter.fastest = chartData ∧
      filteredChartData chartData LapFilter.average = chartData := by
  have htimes : (chartData.map (·.time)).filterMap id = ([] : List ℚ) := by
    rw [List.filterMap_eq_nil]
    intro a ha
    rcases List.mem_map.mp ha with ⟨l, hl, rfl⟩
    rw [h l hl]; rfl
  constructor <;>
  · apply List.filter_eq_self.mpr
    intro l hl
    simp [htimes]

/-- Witness for C9 at a concrete one-lap input with a null time. -/
theorem filter_c9_witness :
    filteredChartData [{ lap := 1, time := none, compound := none }]
        LapFilter.fastest =
      [{ lap := 1, time := none, compound := none }] :=
  (filter_c9_all_null [{ lap := 1, time := none, compound := none }]
    (by decide)).1

/-! ### No pit stops, empty data (claims C6, C8) -/

/-- C6: with no pit stops the reconstruction returns exactly one stint over
`[minLap, maxLap]` whose compound is the first lap record's compound,
`MEDIUM` when that compound is absent. -/
theorem stints_c6_no_pits (chartData : List LapRec) (hne : chartData ≠ [])
    (hc : chartData.head?.bind (·.compound) ≠ some "") :
    buildStints chartData [] =
      [{ compound := (chartData.head?.bind (·.compound)).getD "MEDIUM",
         data := chartData,
         startLap := minLap chartData, endLap := maxLap chartData }] := by
  have hlen : chartData.length > 0 := List.length_pos.mpr hne
  unfold buildStints
  rw [if_neg (by simp), if_pos hlen, jsOrStr_eq_getD _ _ hc]

/-- Witness for C6 at a concrete one-lap input. -/
theorem stints_c6_witness :
    buildStints [{ lap := 5, time := some 80, compound := some "SOFT" }] [] =
      [{ compound := "SOFT",
         data := [{ lap := 5, time := some 80, compound := some "SOFT" }],
         startLap := 5, endLap := 5 }] :=
  (stints_c6_no_pits [{ lap := 5, time := some 80, compound := some "SOFT" }]
    (by decide) (by decide)).trans (by decide)

/-- C8: with an empty lap sequence the reconstruction returns `[]` for every
pit-stop list: both the pit-stop branch and the no-pit-stop branch are
guarded on a non-empty `chartData`, so no min/max of an empty set is taken. -/
theorem stints_c8_empty_laps (pit_stops : List PitStop) :
    buildStints [] pit_stops = [] := by
  simp [buildStints]

/-! ### Telemetry alignment (claims C7, C10) -/

/-- C7: the aligned speed series has length `min(len(series1), len(series2))`
and its `speedDelta` at every valid index `i` is
`series1.speed[i] - series2.speed[i]`. -/
theorem telemetry_c7_speed_align (t : TelemetryPair)
    (h1 : t.lap1.telemetry.Speed.length = t.lap1.telemetry.Distance.length)
    (h2 : t.lap2.telemetry.Speed.length = t.lap2.telemetry.Distance.length) :
    (prepareSpeedData (some t)).length =
        min t.lap1.telemetry.Speed.length t.lap2.telemetry.Speed.length ∧
      ∀ i, i < (prepareSpeedData (some t)).length →
        ((prepareSpeedData (some t)).getD i default).speedDelta =
          some (t.lap1.telemetry.Speed.getD i 0 - t.lap2.telemetry.Speed.getD i 0) := by
  have hlen : (prepareSpeedData (some t)).length =
      min t.lap1.telemetry.Distance.length t.lap2.telemetry.Distance.length := by
    simp [prepareSpeedData]
  refine ⟨by rw [hlen, h1, h2], ?_⟩
  intro i hi
  rw [hlen] at hi
  have hi1 : i < t.lap1.telemetry.Speed.length := by
    rw [h1]; exact lt_of_lt_of_le hi (min_le_left _ _)
  have hi2 : i < t.lap2.telemetry.Speed.length := by
    rw [h2]; exact lt_of_lt_of_le hi (min_le_right _ _)
  rw [List.getD_eq_getElem?_getD]
  unfold prepareSpeedData
  rw [List.getElem?_map, List.getElem?_range hi]
  simp [optSub, List.getElem?_eq_getElem hi1, List.getElem?_eq_getElem hi2,
    List.getD_eq_getElem?_getD]

/-- Telemetry pair for the C7 witness: two samples against one. -/
def cPairA : TelemetryPair :=
  { lap1 := ⟨{ Distance := [0, 100], Speed := [310, 280], Throttle := [100, 80],
               Brake := [0, 1], nGear := [7, 6], RPM := [11000, 10500],
               DRS := [0, 0] }⟩,
    lap2 := ⟨{ Distance := [0], Speed := [305], Throttle := [100], Brake := [0],
               nGear := [8], RPM := [11200], DRS := [0] }⟩ }

/-- Witness for C7 at the concrete pair `cPairA`. -/
theorem telemetry_c7_witness :
    (prepareSpeedData (some cPairA)).length = 1 ∧
      ((prepareSpeedData (some cPairA)).getD 0 default).speedDelta = some 5 := by
  have h := telemetry_c7_speed_align cPairA rfl rfl
  have h0 : 0 < (prepareSpeedData (some cPairA)).length := by rw [h.1]; decide
  exact ⟨h.1.trans (by decide), (h.2 0 h0).trans (by norm_num [cPairA])⟩

/-- C10: unlike the speed alignment, gear and RPM alignment iterate over
`series1`'s length only: when `series2` is shorter, the joined series have
length `len(series1)` and their second-driver entries at indices at or past
`len(series2)` read past the end of `series2`, yielding `undefined`. -/
theorem telemetry_c10_gear_rpm_overrun (t : TelemetryPair)
    (hg2 : t.lap2.telemetry.nGear.length = t.lap2.telemetry.Distance.length)
    (hr2 : t.lap2.telemetry.RPM.length = t.lap2.telemetry.Distance.length)
    (hlt : t.lap2.telemetry.Distance.length < t.lap1.telemetry.Distance.length) :
    (prepareGearData (some t)).length = t.lap1.telemetry.Distance.length ∧
      (prepareRPMData (some t)).length = t.lap1.telemetry.Distance.length ∧
      ∀ i, t.lap2.telemetry.Distance.length ≤ i →
        i < t.lap1.telemetry.Distance.length →
          ((prepareGearData (some t)).getD i default).gear2 = none ∧
            ((prepareRPMData (some t)).getD i default).rpm2 = none := by
  have _ := hlt
  refine ⟨by simp [prepareGearData], by simp [prepareRPMData], ?_⟩
  intro i hge hlt1
  constructor
  · rw [List.getD_eq_getElem?_getD]
    unfold prepareGearData
    rw [List.getElem?_map, List.getElem?_range hlt1]
    have : t.lap2.telemetry.nGear[i]? = none :=
      List.getElem?_eq_none (by rw [hg2]; exact hge)
    simp [this]
  · rw [List.getD_eq_getElem?_getD]
    unfold prepareRPMData
    rw [List.getElem?_map, List.getElem?_range hlt1]
    have : t.lap2.telemetry.RPM[i]? = none :=
      List.getElem?_eq_none (by rw [hr2]; exact hge)
    simp [this]

/-- Telemetry pair for the C10 witness: two samples against one. -/
def cPairB : TelemetryPair :=
  { lap1 := ⟨{ Distance := [0, 100], Speed := [300, 290], Throttle := [90, 95],
               Brake := [0, 0], nGear := [6, 7], RPM := [10000, 10800],
               DRS := [0, 0] }⟩,
    lap2 := ⟨{ Distance := [0], Speed := [299], Throttle := [88], Brake := [0],
               nGear := [5], RPM := [9900], DRS := [0] }⟩ }

/-- Witness for C10 at the concrete pair `cPairB`. -/
theorem telemetry_c10_witness :
    (prepareGearData (some cPairB)).length = 2 ∧
      ((prepareGearData (some cPairB)).getD 1 default).gear2 = none ∧
      ((prepareRPMData (some cPairB)).getD 1 default).rpm2 = none := by
  have h := telemetry_c10_gear_rpm_overrun cPairB rfl rfl (by decide)
  exact ⟨h.1.trans (by decide), (h.2.2 1 (by decide) (by decide)).1,
    (h.2.2 1 (by decide) (by decide)).2⟩

/-! ### Lap-range lemmas -/

theorem le_maxLap (cd : List LapRec) : ∀ l ∈ cd, l.lap ≤ maxLap cd := by
  induction cd with
  | nil => intro l h; exact absurd h (List.not_mem_nil l)
  | cons x xs ih =>
    intro l h
    cases xs with
    | nil =>
      rcases List.mem_singleton.mp h with rfl
      exact le_of_eq rfl
    | cons y ys =>
      show l.lap ≤ max x.lap (maxLap (y :: ys))
      rcases List.mem_cons.mp h with rfl | h'
      · exact le_max_left _ _
      · exact le_trans (ih l h') (le_max_right _ _)

theorem minLap_le (cd : List LapRec) : ∀ l ∈ cd, minLap cd ≤ l.lap := by
  induction cd with
  | nil => intro l h; exact absurd h (List.not_mem_nil l)
  | cons x xs ih =>
    intro l h
    cases xs with
    | nil =>
      rcases List.mem_singleton.mp h with rfl
      exact le_of_eq rfl
    | cons y ys =>
      show min x.lap (minLap (y :: ys)) ≤ l.lap
      rcases List.mem_cons.mp h with rfl | h'
      · exact min_le_left _ _
      · exact le_trans (min_le_right _ _) (ih l h')

theorem maxLap_mem (cd : List LapRec) (h : cd ≠ []) :
    ∃ l ∈ cd, l.lap = maxLap cd := by
  induction cd with
  | nil => exact absurd rfl h
  | cons x xs ih =>
    cases xs with
    | nil => exact ⟨x, List.mem_singleton_self x, rfl⟩
    | cons y ys =>
      rcases ih (by simp) with ⟨m, hm, hml⟩
      by_cases hc : maxLap (y :: ys) ≤ x.lap
      · refine ⟨x, List.mem_cons_self x _, ?_⟩
        show x.lap = max x.lap (maxLap (y :: ys))
        rw [max_eq_left hc]
      · refine ⟨m, List.mem_cons_of_mem _ hm, ?_⟩
        show m.lap = max x.lap (maxLap (y :: ys))
        rw [max_eq_right (le_of_not_le hc), hml]

theorem minLap_le_maxLap (cd : List LapRec) (h : cd ≠ []) :
    minLap cd ≤ maxLap cd := by
  cases cd with
  | nil => exact absurd rfl h
  | cons x xs =>
    exact le_trans (minLap_le (x :: xs) x (List.mem_cons_self x xs))
      (le_maxLap (x :: xs) x (List.mem_cons_self x xs))

/-! ### Sorting lemmas -/

theorem insertPit_of_lt_head (p : PitStop) (ps : List PitStop)
    (h : ∀ q ∈ ps, p.lap < q.lap) : insertPit p ps = p :: ps := by
  cases ps with
  | nil => rfl
  | cons q qs =>
    unfold insertPit
    rw [if_neg (not_lt_of_lt (h q (List.mem_cons_self q qs)))]

/-- Sorting a pit-stop list that is already strictly increasing by lap is
the identity. -/
theorem sortPits_eq_self (ps : List PitStop)
    (h : List.Pairwise (fun a b => a.lap < b.lap) ps) : sortPits ps = ps := by
  induction ps with
  | nil => rfl
  | cons p qs ih =>
    rcases List.pairwise_cons.mp h with ⟨hhead, htail⟩
    show insertPit p (sortPits qs) = p :: qs
    rw [ih htail, insertPit_of_lt_head p qs hhead]

theorem le_getLast_of_pairwise (ps : List PitStop)
    (h : List.Pairwise (fun a b => a.lap < b.lap) ps) (hne : ps ≠ []) :
    ∀ p ∈ ps, p.lap ≤ (ps.getLast hne).lap := by
  induction ps with
  | nil => exact absurd rfl hne
  | cons x xs ih =>
    rcases List.pairwise_cons.mp h with ⟨hhead, htail⟩
    intro p hp
    cases xs with
    | nil =>
      rcases List.mem_singleton.mp hp with rfl
      exact le_refl _
    | cons y ys =>
      rw [List.getLast_cons (by simp : (y :: ys) ≠ [])]
      rcases List.mem_cons.mp hp with rfl | hp'
      · exact le_of_lt (hhead _ (List.getLast_mem (by simp)))
      · exact ih htail (by simp) p hp'

/-- On a strictly increasing pit-stop list, looking up the last pit stop's
lap finds the last pit stop itself. -/
theorem find_lap_getLast (ps : List PitStop) (hne : ps ≠ [])
    (h : List.Pairwise (fun a b => a.lap < b.lap) ps) :
    ps.find? (fun q => q.lap == (ps.getLast hne).lap) = some (ps.getLast hne) := by
  induction ps with
  | nil => exact absurd rfl hne
  | cons x xs ih =>
    rcases List.pairwise_cons.mp h with ⟨hhead, htail⟩
    cases xs with
    | nil => simp [List.find?]
    | cons y ys =>
      have hxs : (y :: ys) ≠ [] := by simp
      rw [List.getLast_cons hxs]
      have hx : x.lap < ((y :: ys).getLast hxs).lap :=
        hhead _ (List.getLast_mem hxs)
      rw [List.find?_cons_of_neg _ (by simp; omega), ih hxs htail]

/-! ### Pit-stop loop lemmas -/

theorem pitLoop_nil (cd : List LapRec) (allp : List PitStop) (prev : Option PitStop)
    (s0 : Int) : pitLoop cd allp prev s0 [] = [] := rfl

theorem pitLoop_cons (cd : List LapRec) (allp : List PitStop) (prev : Option PitStop)
    (s0 : Int) (p : PitStop) (rest : List PitStop) :
    pitLoop cd allp prev s0 (p :: rest) =
      (if s0 ≤ p.lap - 1 then
        [{ compound := resolveLoopCompound
             (cd.filter (fun l => decide (s0 ≤ l.lap ∧ l.lap ≤ p.lap - 1))) cd allp prev,
           data := cd.filter (fun l => decide (s0 ≤ l.lap ∧ l.lap ≤ p.lap - 1)),
           startLap := s0, endLap := p.lap - 1 }]
       else []) ++ pitLoop cd allp (some p) (p.lap + 1) rest := rfl

/-- Every stint emitted by the loop starts at or after the running stint
start, is non-degenerate, and ends one lap before one of the pit stops. -/
theorem pitLoop_shape (cd : List LapRec) (allp : List PitStop) :
    ∀ (ps : List PitStop) (prev : Option PitStop) (s0 : Int),
      (∀ p ∈ ps, s0 ≤ p.lap) →
      List.Pairwise (fun a b => a.lap < b.lap) ps →
      ∀ st ∈ pitLoop cd allp prev s0 ps,
        s0 ≤ st.startLap ∧ st.startLap ≤ st.endLap ∧ ∃ p ∈ ps, st.endLap = p.lap - 1 := by
  intro ps
  induction ps with
  | nil => intro prev s0 _ _ st hst; rw [pitLoop_nil] at hst; exact absurd hst (List.not_mem_nil st)
  | cons p rest ih =>
    intro prev s0 hge hp st hst
    rcases List.pairwise_cons.mp hp with ⟨hhead, htail⟩
    rw [pitLoop_cons] at hst
    rcases List.mem_append.mp hst with h1 | h2
    · by_cases hg : s0 ≤ p.lap - 1
      · rw [if_pos hg] at h1
        rcases List.mem_singleton.mp h1 with rfl
        exact ⟨le_refl _, hg, ⟨p, List.mem_cons_self _ _, rfl⟩⟩
      · rw [if_neg hg] at h1; exact absurd h1 (List.not_mem_nil st)
    · have hge' : ∀ q ∈ rest, p.lap + 1 ≤ q.lap := fun q hq => by
        have := hhead q hq; omega
      rcases ih (some p) (p.lap + 1) hge' htail st h2 with ⟨ha, hb, q, hq, hc⟩
      have hs0p : s0 ≤ p.lap := hge p (List.mem_cons_self _ _)
      exact ⟨by omega, hb, ⟨q, List.mem_cons_of_mem _ hq, hc⟩⟩

/-- Stints emitted by the loop are ordered and non-overlapping. -/
theorem pitLoop_pairwise (cd : List LapRec) (allp : List PitStop) :
    ∀ (ps : List PitStop) (prev : Option PitStop) (s0 : Int),
      (∀ p ∈ ps, s0 ≤ p.lap) →
      List.Pairwise (fun a b => a.lap < b.lap) ps →
      List.Pairwise (fun s t => s.endLap < t.startLap) (pitLoop cd allp prev s0 ps) := by
  intro ps
  induction ps with
  | nil => intro prev s0 _ _; rw [pitLoop_nil]; exact List.Pairwise.nil
  | cons p rest ih =>
    intro prev s0 hge hp
    rcases List.pairwise_cons.mp hp with ⟨hhead, htail⟩
    have hge' : ∀ q ∈ rest, p.lap + 1 ≤ q.lap := fun q hq => by
      have := hhead q hq; omega
    rw [pitLoop_cons]
    refine List.pairwise_append.mpr ⟨?_, ih (some p) (p.lap + 1) hge' htail, ?_⟩
    · split <;> simp
    · intro a ha b hb
      have hbs : p.lap + 1 ≤ b.startLap :=
        (pitLoop_shape cd allp rest (some p) (p.lap + 1) hge' htail b hb).1
      by_cases hg : s0 ≤ p.lap - 1
      · rw [if_pos hg] at ha
        rcases List.mem_singleton.mp ha with rfl
        show p.lap - 1 < b.startLap
        omega
      · rw [if_neg hg] at ha; exact absurd ha (List.not_mem_nil a)

/-- Coverage of the loop stints: a lap number `n` lies in one of the loop
stints' ranges iff it is at or past the running stint start, is not a pit
lap, and lies strictly before some pit lap. -/
theorem pitLoop_cover (cd : List LapRec) (allp : List PitStop) :
    ∀ (ps : List PitStop) (prev : Option PitStop) (s0 : Int),
      (∀ p ∈ ps, s0 ≤ p.lap) →
      List.Pairwise (fun a b => a.lap < b.lap) ps →
      ∀ n : Int,
        ((∃ st ∈ pitLoop cd allp prev s0 ps, st.startLap ≤ n ∧ n ≤ st.endLap) ↔
          (s0 ≤ n ∧ (∀ p ∈ ps, p.lap ≠ n) ∧ ∃ p ∈ ps, n < p.lap)) := by
  intro ps
  induction ps with
  | nil =>
    intro prev s0 _ _ n
    rw [pitLoop_nil]
    simp
  | cons p rest ih =>
    intro prev s0 hge hp n
    rcases List.pairwise_cons.mp hp with ⟨hhead, htail⟩
    have hge' : ∀ q ∈ rest, p.lap + 1 ≤ q.lap := fun q hq => by
      have := hhead q hq; omega
    have hs0p : s0 ≤ p.lap := hge p (List.mem_cons_self _ _)
    rw [pitLoop_cons]
    constructor
    · rintro ⟨st, hst, hns, hne'⟩
      rcases List.mem_append.mp hst with h1 | h2
      · by_cases hg : s0 ≤ p.lap - 1
        · rw [if_pos hg] at h1
          rcases List.mem_singleton.mp h1 with rfl
          have hns' : s0 ≤ n := hns
          have hne'' : n ≤ p.lap - 1 := hne'
          refine ⟨hns', ?_, ⟨p, List.mem_cons_self _ _, by omega⟩⟩
          intro q hq
          rcases List.mem_cons.mp hq with rfl | hq'
          · omega
          · have := hhead q hq'; omega
        · rw [if_neg hg] at h1; exact absurd h1 (List.not_mem_nil st)
      · rcases (ih (some p) (p.lap + 1) hge' htail n).mp ⟨st, h2, hns, hne'⟩ with
          ⟨h1n, hnq, q, hq, hnq'⟩
        refine ⟨by omega, ?_, ⟨q, List.mem_cons_of_mem _ hq, hnq'⟩⟩
        intro r hr
        rcases List.mem_cons.mp hr with rfl | hr'
        · omega
        · exact hnq r hr'
    · rintro ⟨hs0n, hneq, q, hq, hnq⟩
      by_cases hnp : n < p.lap
      · have hg : s0 ≤ p.lap - 1 := by omega
        rw [if_pos hg]
        have hend : n ≤ p.lap - 1 := by omega
        exact ⟨_, List.mem_append_left _ (List.mem_singleton_self _), hs0n, hend⟩
      · have hpn : p.lap ≠ n := hneq p (List.mem_cons_self _ _)
        have h1n : p.lap + 1 ≤ n := by omega
        have hq' : q ∈ rest := by
          rcases List.mem_cons.mp hq with rfl | h'
          · omega
          · exact h'
        rcases (ih (some p) (p.lap + 1) hge' htail n).mpr
            ⟨h1n, fun r hr => hneq r (List.mem_cons_of_mem _ hr), ⟨q, hq', hnq⟩⟩ with
          ⟨st, hst, hc⟩
        exact ⟨st, List.mem_append_right _ hst, hc⟩

/-! ### Unfolding the stint construction -/

/-- With laps but no pit stops the construction takes the single-stint
branch. -/
theorem buildStints_no_pits (cd : List LapRec) (hne : cd ≠ []) :
    buildStints cd [] =
      [{ compound := jsOrStr (cd.head?.bind (·.compound)) "MEDIUM",
         data := cd, startLap := minLap cd, endLap := maxLap cd }] := by
  unfold buildStints
  rw [if_neg (by simp), if_pos (List.length_pos.mpr hne)]

/-- With laps and a sorted pit-stop list the construction is the loop
stints followed by the conditionally emitted final stint. -/
theorem buildStints_eq_pits (cd : List LapRec) (pits : List PitStop)
    (hne : cd ≠ []) (hpne : pits ≠ [])
    (hsorted : List.Pairwise (fun a b => a.lap < b.lap) pits) :
    buildStints cd pits =
      pitLoop cd pits none (minLap cd) pits ++
        (if 0 < (cd.filter (fun l =>
              decide ((pits.getLast hpne).lap + 1 ≤ l.lap ∧ l.lap ≤ maxLap cd))).length then
          [{ compound :=
               jsOrStr
                 (jsOrOptStr
                   ((pits.find? (fun q => q.lap == (pits.getLast hpne).lap)).bind
                     (·.compound_before))
                   ((cd.filter (fun l =>
                       decide ((pits.getLast hpne).lap + 1 ≤ l.lap ∧
                         l.lap ≤ maxLap cd))).head?.bind (·.compound)))
                 "HARD",
             data := cd.filter (fun l =>
               decide ((pits.getLast hpne).lap + 1 ≤ l.lap ∧ l.lap ≤ maxLap cd)),
             startLap := (pits.getLast hpne).lap + 1, endLap := maxLap cd }]
         else []) := by
  have h1 : 0 < cd.length := List.length_pos.mpr hne
  have h2 : 0 < pits.length := List.length_pos.mpr hpne
  have h3 : sortPits pits = pits := sortPits_eq_self pits hsorted
  have h4 : pits.getLast? = some (pits.getLast hpne) := List.getLast?_eq_getLast pits hpne
  simp only [buildStints, h3, h4]
  rw [if_pos (And.intro h1 h2)]
  split <;> simp_all

/-! ### Stint partition of the lap range (claim C2) -/

/-- Laps 1–3 with a pit stop on lap 2. -/
def c2Laps : List LapRec :=
  [{ lap := 1, time := none, compound := some "SOFT" },
   { lap := 2, time := none, compound := some "SOFT" },
   { lap := 3, time := none, compound := some "MEDIUM" }]

/-- The single pit stop on lap 2 for the C2 counterexample. -/
def c2Pits : List PitStop := [{ lap := 2, compound_before := some "SOFT" }]

/-- C2: the stint ranges do not cover the observed range minus skipped
degenerate stints: with laps 1–3 and a pit stop on lap 2 both stints are
emitted (none is skipped), yet lap 2 — inside `[1, 3]` — lies in no stint:
the pit lap itself is never covered. -/
theorem stints_c2_counterexample :
    (buildStints c2Laps c2Pits).map (fun st => (st.startLap, st.endLap)) =
        [(1, 1), (3, 3)] ∧
      ¬∃ st ∈ buildStints c2Laps c2Pits, st.startLap ≤ 2 ∧ 2 ≤ st.endLap := by
  exact ⟨by decide, by decide⟩

/-- C2 (amended): for a non-empty lap sequence and a sorted, strictly
increasing pit-stop list whose laps lie inside the observed lap range, the
reconstructed stints are non-degenerate, ordered and non-overlapping, and
their `[startLap, endLap]` ranges cover exactly
`[minLap, maxLap]` minus the pit-stop laps themselves. -/
theorem stints_c2_amended (cd : List LapRec) (pits : List PitStop)
    (hne : cd ≠ [])
    (hsorted : List.Pairwise (fun a b => a.lap < b.lap) pits)
    (hrange : ∀ p ∈ pits, minLap cd ≤ p.lap ∧ p.lap ≤ maxLap cd) :
    (∀ st ∈ buildStints cd pits, st.startLap ≤ st.endLap) ∧
      List.Pairwise (fun s t => s.endLap < t.startLap) (buildStints cd pits) ∧
      ∀ n : Int,
        ((minLap cd ≤ n ∧ n ≤ maxLap cd ∧ ∀ p ∈ pits, p.lap ≠ n) ↔
          ∃ st ∈ buildStints cd pits, st.startLap ≤ n ∧ n ≤ st.endLap) := by
  rcases eq_or_ne pits [] with rfl | hpne
  · rw [buildStints_no_pits cd hne]
    refine ⟨?_, by simp, ?_⟩
    · intro st hst
      rcases List.mem_singleton.mp hst with rfl
      exact minLap_le_maxLap cd hne
    · intro n
      constructor
      · rintro ⟨h1, h2, _⟩
        exact ⟨_, List.mem_singleton_self _, h1, h2⟩
      · rintro ⟨st, hst, h1, h2⟩
        rcases List.mem_singleton.mp hst with rfl
        exact ⟨h1, h2, by simp⟩
  · have hF : ∀ p ∈ pits, minLap cd ≤ p.lap := fun p hp => (hrange p hp).1
    have hL : ∀ p ∈ pits, p.lap ≤ maxLap cd := fun p hp => (hrange p hp).2
    have hgmem : pits.getLast hpne ∈ pits := List.getLast_mem hpne
    have hgle : ∀ p ∈ pits, p.lap ≤ (pits.getLast hpne).lap :=
      le_getLast_of_pairwise pits hsorted hpne
    have hloopshape := pitLoop_shape cd pits pits none (minLap cd) hF hsorted
    have hlooppair := pitLoop_pairwise cd pits pits none (minLap cd) hF hsorted
    have hloopcover := pitLoop_cover cd pits pits none (minLap cd) hF hsorted
    rcases maxLap_mem cd hne with ⟨lm, hlm, hlml⟩
    rw [buildStints_eq_pits cd pits hne hpne hsorted]
    have hsegiff :
        0 < (cd.filter (fun l =>
            decide ((pits.getLast hpne).lap + 1 ≤ l.lap ∧ l.lap ≤ maxLap cd))).length ↔
          (pits.getLast hpne).lap + 1 ≤ maxLap cd := by
      constructor
      · intro hpos
        rcases List.exists_mem_of_length_pos hpos with ⟨x, hx⟩
        have hx2 := of_decide_eq_true (List.mem_filter.mp hx).2
        omega
      · intro hle
        have hmem : lm ∈ cd.filter (fun l =>
            decide ((pits.getLast hpne).lap + 1 ≤ l.lap ∧ l.lap ≤ maxLap cd)) :=
          List.mem_filter.mpr ⟨hlm, decide_eq_true (by omega)⟩
        exact List.length_pos.mpr (List.ne_nil_of_mem hmem)
    by_cases hfin : 0 < (cd.filter (fun l =>
        decide ((pits.getLast hpne).lap + 1 ≤ l.lap ∧ l.lap ≤ maxLap cd))).length
    · rw [if_pos hfin]
      have hgL : (pits.getLast hpne).lap + 1 ≤ maxLap cd := hsegiff.mp hfin
      refine ⟨?_, ?_, ?_⟩
      · intro st hst
        rcases List.mem_append.mp hst with h1 | h2
        · exact (hloopshape st h1).2.1
        · rcases List.mem_singleton.mp h2 with rfl
          show (pits.getLast hpne).lap + 1 ≤ maxLap cd
          exact hgL
      · refine List.pairwise_append.mpr ⟨hlooppair, by simp, ?_⟩
        intro a ha b hb
        rcases List.mem_singleton.mp hb with rfl
        rcases (hloopshape a ha).2.2 with ⟨q, hq, hqe⟩
        have := hgle q hq
        show a.endLap < (pits.getLast hpne).lap + 1
        omega
      · intro n
        constructor
        · rintro ⟨hFn, hLn, hnot⟩
          by_cases hng : n < (pits.getLast hpne).lap
          · rcases (hloopcover n).mpr ⟨hFn, hnot, ⟨_, hgmem, hng⟩⟩ with ⟨st, hst, hc⟩
            exact ⟨st, List.mem_append_left _ hst, hc⟩
          · have := hnot _ hgmem
            have hstart : (pits.getLast hpne).lap + 1 ≤ n := by omega
            exact ⟨_, List.mem_append_right _ (List.mem_singleton_self _), hstart, hLn⟩
        · rintro ⟨st, hst, h1, h2⟩
          rcases List.mem_append.mp hst with hin | hin
          · rcases (hloopcover n).mp ⟨st, hin, h1, h2⟩ with ⟨hFn, hnot, q, hq, hnq⟩
            have := hL q hq
            exact ⟨hFn, by omega, hnot⟩
          · rcases List.mem_singleton.mp hin with rfl
            have h1' : (pits.getLast hpne).lap + 1 ≤ n := h1
            have h2' : n ≤ maxLap cd := h2
            have hFg := hF _ hgmem
            refine ⟨by omega, h2', ?_⟩
            intro p hp
            have := hgle p hp
            omega
    · rw [if_neg hfin, List.append_nil]
      have hgL : maxLap cd ≤ (pits.getLast hpne).lap := by
        have := mt hsegiff.mpr hfin
        omega
      have hgeq : (pits.getLast hpne).lap = maxLap cd :=
        le_antisymm (hL _ hgmem) hgL
      refine ⟨fun st hst => (hloopshape st hst).2.1, hlooppair, ?_⟩
      intro n
      constructor
      · rintro ⟨hFn, hLn, hnot⟩
        have hng : n < (pits.getLast hpne).lap := by
          have := hnot _ hgmem
          omega
        exact (hloopcover n).mpr ⟨hFn, hnot, ⟨_, hgmem, hng⟩⟩
      · intro h
        rcases (hloopcover n).mp h with ⟨hFn, hnot, q, hq, hnq⟩
        have := hL q hq
        exact ⟨hFn, by omega, hnot⟩

/-- Witness for C2 (amended) on laps 1–3 with a pit stop on lap 2: lap 3 is
covered by a stint. -/
theorem stints_c2_witness :
    ∃ st ∈ buildStints c2Laps c2Pits, st.startLap ≤ 3 ∧ 3 ≤ st.endLap := by
  have h := stints_c2_amended c2Laps c2Pits (by decide) (by decide) (by decide)
  exact (h.2.2 3).mp (by decide)

/-! ### The compound fallback chain of loop stints (claim C5) -/

/-- The claim's compound fallback chain for a loop stint over
`[startLap, endLap]`: first non-null compound among the laps in range,
else the `compound_before` of the pit stop on lap `startLap - 1` (the
previous pit stop), else the first lap record's compound, else MEDIUM. -/
def claimStintCompound (chartData : List LapRec) (pitStops : List PitStop)
    (startLap endLap : Int) : String :=
  match (chartData.filter (fun l =>
      decide (startLap ≤ l.lap ∧ l.lap ≤ endLap))).findSome? (·.compound) with
  | some c => c
  | none =>
    match (pitStops.find? (fun q => q.lap == startLap - 1)).bind (·.compound_before) with
    | some c => c
    | none =>
      match chartData.head?.bind (·.compound) with
      | some c => c
      | none => "MEDIUM"

/-- Without empty-string compounds, finding the first lap with a truthy
compound and taking its compound is finding the first non-null compound. -/
theorem find_truthy_eq_findSome (xs : List LapRec)
    (h : ∀ l ∈ xs, l.compound ≠ some "") :
    (xs.find? (fun l => !jsFalsyStr l.compound)).bind (·.compound) =
      xs.findSome? (·.compound) := by
  induction xs with
  | nil => rfl
  | cons x xs ih =>
    have hx := h x (List.mem_cons_self x xs)
    have ih' := ih (fun l hl => h l (List.mem_cons_of_mem _ hl))
    cases hc : x.compound with
    | none =>
      rw [List.find?_cons_of_neg _ (by simp [jsFalsyStr, hc])]
      simp [List.findSome?_cons, hc, ih']
    | some s =>
      have hs : ¬s = "" := fun h' => hx (by rw [hc, h'])
      rw [List.find?_cons_of_pos _ (by simp [jsFalsyStr, hc, hs])]
      simp [List.findSome?_cons, hc]

theorem jsOrStr_head_eq_claim (cd : List LapRec)
    (hlc : ∀ l ∈ cd, l.compound ≠ some "") :
    jsOrStr (cd.head?.bind (·.compound)) "MEDIUM" =
      match cd.head?.bind (·.compound) with
      | some c => c
      | none => "MEDIUM" := by
  cases hh : cd.head?.bind (·.compound) with
  | none => rfl
  | some c =>
    rcases Option.bind_eq_some.mp hh with ⟨l, hl, hlcc⟩
    have hmem := hlc l (List.mem_of_mem_head? hl)
    have hc : ¬c = "" := fun h => hmem (by rw [hlcc, h])
    simp [jsOrStr, hc]

/-- The code's compound resolution for one loop stint agrees with the
claim's fallback chain, provided compounds are never the (falsy) empty
string and `prev` is the pit stop on lap `s0 - 1` (or there is none). -/
theorem resolveLoopCompound_eq_claim (cd : List LapRec) (allp : List PitStop)
    (hlc : ∀ l ∈ cd, l.compound ≠ some "")
    (hpc : ∀ q ∈ allp, q.compound_before ≠ some "")
    (prev : Option PitStop) (s0 e : Int)
    (hprev : match prev with
             | none => ∀ q ∈ allp, q.lap ≠ s0 - 1
             | some pp => pp.lap = s0 - 1) :
    resolveLoopCompound (cd.filter (fun l => decide (s0 ≤ l.lap ∧ l.lap ≤ e)))
        cd allp prev =
      claimStintCompound cd allp s0 e := by
  have hfl : ∀ l ∈ cd.filter (fun l => decide (s0 ≤ l.lap ∧ l.lap ≤ e)),
      l.compound ≠ some "" := fun l hl => hlc l (List.mem_filter.mp hl).1
  unfold resolveLoopCompound claimStintCompound
  rw [find_truthy_eq_findSome _ hfl]
  cases hc0 : (cd.filter (fun l =>
      decide (s0 ≤ l.lap ∧ l.lap ≤ e))).findSome? (·.compound) with
  | some c =>
    rcases List.exists_of_findSome?_eq_some hc0 with ⟨l, hl, hlcc⟩
    have hcne : ¬c = "" := fun h => hfl l hl (by rw [hlcc, h])
    simp [jsFalsyStr, jsOrStr, hcne]
  | none =>
    cases prev with
    | none =>
      have hfind : allp.find? (fun q => q.lap == s0 - 1) = none :=
        List.find?_eq_none.mpr (fun q hq => by simpa using hprev q hq)
      rw [hfind]
      simp [jsFalsyStr]
      exact jsOrStr_head_eq_claim cd hlc
    | some pp =>
      dsimp only
      rw [show pp.lap = s0 - 1 from hprev]
      cases hfind : (allp.find? (fun q => q.lap == s0 - 1)).bind (·.compound_before) with
      | some c =>
        rcases Option.bind_eq_some.mp hfind with ⟨q', hq', hqc⟩
        have hcne : ¬c = "" := fun h =>
          hpc q' (List.mem_of_find?_eq_some hq') (by rw [hqc, h])
        simp [jsFalsyStr, jsOrStr, hcne]
      | none =>
        simp [jsFalsyStr]
        exact jsOrStr_head_eq_claim cd hlc

/-- Every stint emitted by the loop carries the claim's compound chain,
by induction along the pit stops with `prev` tracked. -/
theorem pitLoop_compound (cd : List LapRec) (allp : List PitStop)
    (hlc : ∀ l ∈ cd, l.compound ≠ some "")
    (hpc : ∀ q ∈ allp, q.compound_before ≠ some "") :
    ∀ (ps : List PitStop) (prev : Option PitStop) (s0 : Int),
      (match prev with
       | none => ∀ q ∈ allp, q.lap ≠ s0 - 1
       | some pp => pp.lap = s0 - 1) →
      ∀ st ∈ pitLoop cd allp prev s0 ps,
        st.compound = claimStintCompound cd allp st.startLap st.endLap := by
  intro ps
  induction ps with
  | nil =>
    intro prev s0 _ st hst
    rw [pitLoop_nil] at hst
    exact absurd hst (List.not_mem_nil st)
  | cons p rest ih =>
    intro prev s0 hprev st hst
    rw [pitLoop_cons] at hst
    rcases List.mem_append.mp hst with h1 | h2
    · by_cases hg : s0 ≤ p.lap - 1
      · rw [if_pos hg] at h1
        rcases List.mem_singleton.mp h1 with rfl
        exact resolveLoopCompound_eq_claim cd allp hlc hpc prev s0 (p.lap - 1) hprev
      · rw [if_neg hg] at h1; exact absurd h1 (List.not_mem_nil st)
    · exact ih (some p) (p.lap + 1) (show p.lap = p.lap + 1 - 1 by omega) st h2

/-- C5: every stint emitted during the pit-stop loop (run as in the stint
construction, on the sorted pit stops, starting from the minimum lap)
carries as compound the first non-null compound among its laps, else the
previous pit stop's `compound_before`, else the first lap record's
compound, else MEDIUM. -/
theorem stints_c5_loop_compound (cd : List LapRec) (pits : List PitStop)
    (hlc : ∀ l ∈ cd, l.compound ≠ some "")
    (hpc : ∀ q ∈ pits, q.compound_before ≠ some "")
    (hF : ∀ q ∈ pits, minLap cd ≤ q.lap) :
    ∀ st ∈ pitLoop cd pits none (minLap cd) (sortPits pits),
      st.compound = claimStintCompound cd pits st.startLap st.endLap :=
  pitLoop_compound cd pits hlc hpc (sortPits pits) none (minLap cd)
    (fun q hq => by have := hF q hq; omega)

/-- Laps and pit stop for the C5 witness. -/
def c5Laps : List LapRec :=
  [{ lap := 1, time := none, compound := some "SOFT" },
   { lap := 2, time := none, compound := some "SOFT" },
   { lap := 3, time := none, compound := some "MEDIUM" }]

/-- Pit stop on lap 2 for the C5 witness. -/
def c5Pits : List PitStop := [{ lap := 2, compound_before := some "SOFT" }]

/-- Witness for C5 at the concrete input: the first loop stint `[1, 1]`
receives the first in-range non-null compound, SOFT. -/
theorem stints_c5_witness :
    claimStintCompound c5Laps c5Pits 1 1 = "SOFT" := by
  have h := stints_c5_loop_compound c5Laps c5Pits (by decide) (by decide) (by decide)
    { compound := "SOFT",
      data := [{ lap := 1, time := none, compound := some "SOFT" }],
      startLap := 1, endLap := 1 } (by decide)
  exact h.symm

/-! ### The final stint (claim C3, amended) -/

/-- The claim's fallback chain for the final stint compound: `a`, else
`b`, else the default `d`. -/
def claimFinalCompound (a b : Option String) (d : String) : String :=
  match a with
  | some c => c
  | none =>
    match b with
    | some c => c
    | none => d

theorem jsOr_chain_eq_match (a b : Option String) (d : String)
    (ha : a ≠ some "") (hb : b ≠ some "") :
    jsOrStr (jsOrOptStr a b) d = claimFinalCompound a b d := by
  unfold claimFinalCompound
  cases a with
  | some s =>
    have hs : ¬s = "" := fun h => ha (by rw [h])
    simp [jsOrOptStr, jsFalsyStr, jsOrStr, hs]
  | none =>
    cases b with
    | some s =>
      have hs : ¬s = "" := fun h => hb (by rw [h])
      simp [jsOrOptStr, jsFalsyStr, jsOrStr, hs]
    | none => rfl

/-- C3 (amended): after the pit-stop loop, a final stint is emitted iff the
final segment `[lastPit.lap + 1, maxLap]` contains at least one lap record
(the code skips it otherwise); when emitted it spans that segment with
compound the last pit stop's `compound_before`, else the final segment's
first lap compound, else HARD. -/
theorem stints_c3_amended (cd : List LapRec) (pits : List PitStop)
    (hne : cd ≠ []) (hpne : pits ≠ [])
    (hsorted : List.Pairwise (fun a b => a.lap < b.lap) pits)
    (hlc : ∀ l ∈ cd, l.compound ≠ some "")
    (hcb : (pits.getLast hpne).compound_before ≠ some "") :
    buildStints cd pits =
      pitLoop cd pits none (minLap cd) pits ++
        (if cd.filter (fun l =>
              decide ((pits.getLast hpne).lap + 1 ≤ l.lap ∧ l.lap ≤ maxLap cd)) = [] then
          []
         else
          [{ compound :=
               claimFinalCompound (pits.getLast hpne).compound_before
                 ((cd.filter (fun l =>
                     decide ((pits.getLast hpne).lap + 1 ≤ l.lap ∧
                       l.lap ≤ maxLap cd))).head?.bind (·.compound))
                 "HARD",
             data := cd.filter (fun l =>
               decide ((pits.getLast hpne).lap + 1 ≤ l.lap ∧ l.lap ≤ maxLap cd)),
             startLap := (pits.getLast hpne).lap + 1, endLap := maxLap cd }]) := by
  rw [buildStints_eq_pits cd pits hne hpne hsorted, find_lap_getLast pits hpne hsorted]
  congr 1
  rcases eq_or_ne (cd.filter (fun l =>
      decide ((pits.getLast hpne).lap + 1 ≤ l.lap ∧ l.lap ≤ maxLap cd))) [] with hseg | hseg
  · rw [hseg]
    simp
  · rw [if_pos (List.length_pos.mpr hseg), if_neg hseg]
    have hb : ((cd.filter (fun l =>
        decide ((pits.getLast hpne).lap + 1 ≤ l.lap ∧
          l.lap ≤ maxLap cd))).head?.bind (·.compound)) ≠ some "" := by
      intro hcon
      rcases Option.bind_eq_some.mp hcon with ⟨l, hl, hlcc⟩
      exact hlc l (List.mem_filter.mp (List.mem_of_mem_head? hl)).1 hlcc
    simp only [List.cons.injEq, Stint.mk.injEq, and_true, and_self]
    rw [Option.some_bind]
    exact jsOr_chain_eq_match _ _ "HARD" hcb hb

/-- Laps and pit stop for the C3 witness. -/
def c3wLaps : List LapRec :=
  [{ lap := 1, time := none, compound := some "SOFT" },
   { lap := 2, time := none, compound := some "SOFT" },
   { lap := 3, time := none, compound := some "MEDIUM" }]

/-- Pit stop on lap 2 for the C3 witness. -/
def c3wPits : List PitStop := [{ lap := 2, compound_before := some "SOFT" }]

/-- Witness for C3 (amended): with laps 1–3 and a pit stop on lap 2 the
final segment `[3, 3]` is non-empty, so the final stint is emitted, with
the last pit stop's `compound_before` (SOFT) as compound. -/
theorem stints_c3_amended_witness :
    buildStints c3wLaps c3wPits =
      [{ compound := "SOFT",
         data := [{ lap := 1, time := none, compound := some "SOFT" }],
         startLap := 1, endLap := 1 },
       { compound := "SOFT",
         data := [{ lap := 3, time := none, compound := some "MEDIUM" }],
         startLap := 3, endLap := 3 }] :=
  (stints_c3_amended c3wLaps c3wPits (by decide) (by decide) (by decide)
    (by decide) (by decide)).trans (by decide)
